import Mathlib

set_option maxRecDepth 4000

/-!
Shallow embedding of the Tetris engine in `src/game/mod.rs`.

Conventions of the embedding:
* Rust's 2-dimensional arrays are total functions; the board
  (`[[Pixel; 10]; 20]` in Rust) is `Nat → Nat → Pixel` and every access the
  Rust code performs is bounds-guarded exactly where the Rust code guards it
  (the collision oracle guards, `print_onto` panics on a bad index).
* `panic!` is modelled by the `Except` error monad: each distinct panic site
  of the Rust code maps to a distinct `GameError` value.  `Game::lose`, which
  panics with a message carrying the final points/level/cleared counters, maps
  to the distinct constructor `GameError.lost points level cleared`.
* The RNG (`ThreadRng`) is modelled as an injected oracle `choices : Nat → Nat`
  together with a counter of values consumed so far; `rng.gen_range(0, n)` is
  `choices used % n`, which ranges over exactly the valid indices `[0, n)`.
-/

/-- The seven piece kinds (Rust `enum PieceId`). -/
inductive PieceId where
  | IBlock
  | JBlock
  | LBlock
  | OBlock
  | SBlock
  | TBlock
  | ZBlock
deriving DecidableEq, Repr

/-- Rust `PieceId::ALL`. -/
def PieceId.ALL : List PieceId :=
  [.IBlock, .JBlock, .LBlock, .OBlock, .SBlock, .TBlock, .ZBlock]

/-- A board cell (Rust `enum Pixel`). -/
inductive Pixel where
  | Empty
  | Full (id : PieceId)
deriving DecidableEq, Repr

/-- Rust `Pixel::is_empty`. -/
def Pixel.is_empty : Pixel → Bool
  | .Empty => true
  | .Full _ => false

/-- A 4×4 rotation mask, indexed mask `row` `col` (Rust `type Mask`). -/
def Mask := Fin 4 → Fin 4 → Bool

instance : DecidableEq Mask := by unfold Mask; infer_instance

/-- The four rotation masks of a piece, indexed by rotation index
(Rust `type Masks = [Mask; 4]`). -/
def Masks := Fin 4 → Mask

/-- Rust `type MaskMap = HashMap<PieceId, Masks>` (total: the game only ever
looks up the seven keys the loader inserts). -/
def MaskMap := PieceId → Masks

def GAME_WIDTH : Nat := 10
def GAME_HEIGHT : Nat := 20

/-- The 10×20 board, as `board row col`; only indices in
`[0, GAME_HEIGHT) × [0, GAME_WIDTH)` are ever read or written by the
operations (Rust `type Board = [[Pixel; GAME_WIDTH]; GAME_HEIGHT]`). -/
def Board := Nat → Nat → Pixel

def emptyBoard : Board := fun _ _ => Pixel.Empty

/-- Rust `intersects_with`: does `mask` placed with its top-left corner at
`pos` (signed) overlap the border or a full cell of `board`?  A pure
function of its arguments, exactly like the Rust `fn`. -/
def intersects_with (mask : Mask) (pos : Int × Int) (board : Board) : Bool :=
  (List.finRange 4).any fun relY =>
    (List.finRange 4).any fun relX =>
      mask relY relX &&
        (let absX : Int := (relX.val : Int) + pos.1
         let absY : Int := (relY.val : Int) + pos.2
         if absX < 0 || absX ≥ (GAME_WIDTH : Int) || absY < 0 || absY ≥ (GAME_HEIGHT : Int) then
           true
         else
           !(board absY.toNat absX.toNat).is_empty)

/-- The collision oracle as an existential over mask cells. -/
theorem intersects_with_eq_true_iff (mask : Mask) (pos : Int × Int) (board : Board) :
    intersects_with mask pos board = true ↔
      ∃ ry rx : Fin 4, mask ry rx = true ∧
        (pos.1 + (rx.val : Int) < 0 ∨ (GAME_WIDTH : Int) ≤ pos.1 + (rx.val : Int) ∨
         pos.2 + (ry.val : Int) < 0 ∨ (GAME_HEIGHT : Int) ≤ pos.2 + (ry.val : Int) ∨
         (board (pos.2 + (ry.val : Int)).toNat (pos.1 + (rx.val : Int)).toNat).is_empty = false) := by
  unfold intersects_with
  simp only [List.any_eq_true, List.mem_finRange, Bool.and_eq_true, true_and]
  constructor
  · rintro ⟨ry, rx, hmask, hcell⟩
    refine ⟨ry, rx, hmask, ?_⟩
    split at hcell
    · rename_i hoob
      simp only [Bool.or_eq_true, decide_eq_true_eq] at hoob
      have hd : pos.1 + (rx.val : Int) < 0 ∨ (GAME_WIDTH : Int) ≤ pos.1 + (rx.val : Int) ∨
          pos.2 + (ry.val : Int) < 0 ∨ (GAME_HEIGHT : Int) ≤ pos.2 + (ry.val : Int) := by
        omega
      tauto
    · rename_i hin
      refine Or.inr (Or.inr (Or.inr (Or.inr ?_)))
      rw [Bool.not_eq_true'] at hcell
      rw [show pos.2 + (ry.val : Int) = (ry.val : Int) + pos.2 by ring,
          show pos.1 + (rx.val : Int) = (rx.val : Int) + pos.1 by ring]
      exact hcell
  · rintro ⟨ry, rx, hmask, hcase⟩
    refine ⟨ry, rx, hmask, ?_⟩
    split
    · rfl
    · rename_i hin
      simp only [Bool.or_eq_true, decide_eq_true_eq, not_or, not_lt, not_le] at hin
      rw [Bool.not_eq_true']
      have hb : (board (pos.2 + (ry.val : Int)).toNat (pos.1 + (rx.val : Int)).toNat).is_empty
          = false := by
        rcases hcase with h | hcase
        · omega
        rcases hcase with h | hcase
        · omega
        rcases hcase with h | hcase
        · omega
        rcases hcase with h | h
        · omega
        · exact h
      rw [show (rx.val : Int) + pos.1 = pos.1 + (rx.val : Int) by ring,
          show (ry.val : Int) + pos.2 = pos.2 + (ry.val : Int) by ring]
      exact hb

/-- C1.  `intersects_with` returns `true` iff some set cell `(rx, ry)` of the
mask maps to an absolute cell `(x + rx, y + ry)` that is out of the
`[0,10) × [0,20)` bounds or occupied on the board; it returns `false`
otherwise.  (Purity/absence of side effects holds by construction: the
embedding of the Rust `fn`, which takes only shared references and writes
nothing, is a Lean function.) -/
theorem c1_intersects_iff (mask : Mask) (pos : Int × Int) (board : Board) :
    intersects_with mask pos board = true ↔
      ∃ ry rx : Fin 4, mask ry rx = true ∧
        (pos.1 + (rx.val : Int) < 0 ∨ (GAME_WIDTH : Int) ≤ pos.1 + (rx.val : Int) ∨
         pos.2 + (ry.val : Int) < 0 ∨ (GAME_HEIGHT : Int) ≤ pos.2 + (ry.val : Int) ∨
         (board (pos.2 + (ry.val : Int)).toNat (pos.1 + (rx.val : Int)).toNat).is_empty = false) :=
  intersects_with_eq_true_iff mask pos board

/-- Rust `struct FallingPiece`.  `mask_idx` is `usize` in Rust but is only
ever assigned `0` or the value `((mask_idx + di % 4 + 4) % 4) as usize`,
which lies in `[0, 4)`; it is typed `Fin 4` here so the `masks[mask_idx]`
array access is total. -/
structure FallingPiece where
  id : PieceId
  pos : Int × Int
  mask_idx : Fin 4
  mask : Mask
  lock_delay : Nat
  lock_delay_resets : Nat
deriving DecidableEq

/-- One value per distinct `panic!` site of the Rust code (other than
`Game::lose`, which gets its own `GameError` constructor). -/
inductive PanicKind where
  | printOntoOccupied
  | printOntoOutOfBounds
  | tooManyLinesCleared
  | noFallingPieceIterate
  | noFallingPieceMove
  | noFallingPieceRotate
  | noFallingPieceDrop
  | noFallingPieceSwap
  | emptyPieceQueue
deriving DecidableEq, Repr

/-- The abnormal outcomes of the engine.  Rust signals all of them with
`panic!`, but with distinguishable payloads: `Game::lose` panics with a
message that carries the final points, level and cleared-lines counters,
while every programming-invariant violation panics with its own fixed
message (`PanicKind`).  The embedding keeps those observably distinct
outcomes as distinct constructors. -/
inductive GameError where
  | lost (points level cleared : Nat)
  | panics (kind : PanicKind)
deriving DecidableEq, Repr

deriving instance DecidableEq for Except

/-- Rust `FallingPiece::is_touching_ground` (ground is positive y). -/
def is_touching_ground (fp : FallingPiece) (board : Board) : Bool :=
  intersects_with fp.mask (fp.pos.1, fp.pos.2 + 1) board

def setCell (b : Board) (y x : Nat) (px : Pixel) : Board :=
  fun y' x' => if y' = y ∧ x' = x then px else b y' x'

/-- Rust `FallingPiece::print_onto`: stamp the mask into the board.  The Rust
code indexes `board[abs_y][abs_x]` after an `isize → usize` cast, so a
negative or too-large coordinate panics on the array access
(`printOntoOutOfBounds`); a cell that is already `Full` hits the explicit
`panic!` (`printOntoOccupied`).  Iteration order (outer `rel_x`, inner
`rel_y`) matches the Rust loops. -/
def print_onto (fp : FallingPiece) (board : Board) : Except GameError Board :=
  (List.finRange 4).foldlM
    (fun b (relX : Fin 4) =>
      (List.finRange 4).foldlM
        (fun b (relY : Fin 4) =>
          if fp.mask relY relX then
            let absX : Int := fp.pos.1 + (relX.val : Int)
            let absY : Int := fp.pos.2 + (relY.val : Int)
            if 0 ≤ absX ∧ absX < (GAME_WIDTH : Int) ∧ 0 ≤ absY ∧ absY < (GAME_HEIGHT : Int) then
              match b absY.toNat absX.toNat with
              | Pixel.Empty => Except.ok (setCell b absY.toNat absX.toNat (Pixel.Full fp.id))
              | Pixel.Full _ => Except.error (GameError.panics .printOntoOccupied)
            else
              Except.error (GameError.panics .printOntoOutOfBounds)
          else
            Except.ok b)
        b)
    board

/-- Rust `FallingPiece::LOCK_DELAY`. -/
def LOCK_DELAY : Nat := 5

/-- Rust `FallingPiece::checked_reset_lock_delay`: reset only if already
counting down and resets remain. -/
def checked_reset_lock_delay (fp : FallingPiece) : FallingPiece :=
  if fp.lock_delay < LOCK_DELAY ∧ 0 < fp.lock_delay_resets then
    { fp with lock_delay := LOCK_DELAY, lock_delay_resets := fp.lock_delay_resets - 1 }
  else
    fp

/-- Rust `struct PieceQueue`.  `rng` is modelled by the oracle `choices`
plus the count `used` of random values consumed so far. -/
structure PieceQueue where
  choices : Nat → Nat
  used : Nat
  bag : List PieceId
  queue : List PieceId

/-- Draw from a known-nonempty bag at index `idx0 % length` (the image of
`rng.gen_range(0, bag.len())`), returning the drawn piece and the bag with
that element removed. -/
def drawAt (b : List PieceId) (h : b ≠ []) (idx0 : Nat) : PieceId × List PieceId :=
  let idx := idx0 % b.length
  (b.get ⟨idx, Nat.mod_lt _ (List.length_pos.mpr h)⟩, b.eraseIdx idx)

/-- Rust `PieceQueue::pop_from_bag`: refill the bag with all seven kinds if
it is empty, then remove and return the element at a random index. -/
def pop_from_bag (choices : Nat → Nat) (used : Nat) (bag : List PieceId) :
    PieceId × List PieceId :=
  match bag with
  | [] => drawAt PieceId.ALL (by decide) (choices used)
  | p :: rest => drawAt (p :: rest) (by simp) (choices used)

/-- Rust `PieceQueue::new`: three draws into the lookahead queue. -/
def PieceQueue.new (choices : Nat → Nat) : PieceQueue :=
  let (p1, b1) := pop_from_bag choices 0 []
  let (p2, b2) := pop_from_bag choices 1 b1
  let (p3, b3) := pop_from_bag choices 2 b2
  { choices := choices, used := 3, bag := b3, queue := [p1, p2, p3] }

/-- Rust `PieceQueue::pop`: return the queue front (the `unwrap` panics on an
empty queue, modelled as `none`) and refill the back from the bag. -/
def PieceQueue.pop (q : PieceQueue) : Option (PieceId × PieceQueue) :=
  match q.queue with
  | [] => none
  | out :: rest =>
    let pb := pop_from_bag q.choices q.used q.bag
    some (out, { q with used := q.used + 1, bag := pb.2, queue := rest ++ [pb.1] })

/-- Rust `struct Game`. -/
structure Game where
  mask_map : MaskMap
  tick : Nat
  points : Nat
  level : Nat
  cleared : Nat
  board : Board
  piece_queue : PieceQueue
  falling : Option FallingPiece
  hold : Option PieceId
  can_switch : Bool

/-- Rust `Game::spawn_with_id`: place the piece at the fixed top-centre
position with rotation index 0 and a full lock-delay budget, or transition
to the `lost` outcome when the spawn mask already intersects the board. -/
def spawn_with_id (id : PieceId) (g : Game) : Except GameError Game :=
  let pos : Int × Int := ((GAME_WIDTH : Int) / 2 - 2, 0)
  let mask_idx : Fin 4 := 0
  let mask := g.mask_map id mask_idx
  if intersects_with mask pos g.board then
    Except.error (GameError.lost g.points g.level g.cleared)
  else
    Except.ok { g with
      falling := some { id := id, pos := pos, mask_idx := mask_idx, mask := mask,
                        lock_delay := LOCK_DELAY, lock_delay_resets := 10 } }

/-- Rust `Game::spawn`. -/
def spawn (g : Game) : Except GameError Game :=
  match g.piece_queue.pop with
  | none => Except.error (GameError.panics .emptyPieceQueue)
  | some (id, q') => spawn_with_id id { g with piece_queue := q' }

/-- Rust `Game::destroy_falling_and_respawn`: print the falling piece onto
the board, clear it, re-enable hold switching and spawn the next piece. -/
def destroy_falling_and_respawn (g : Game) : Except GameError Game :=
  match g.falling with
  | none => Except.error (GameError.panics .noFallingPieceIterate)
  | some fp => do
    let b ← print_onto fp g.board
    spawn { g with board := b, falling := none, can_switch := true }

/-- Is board row `y` fully occupied?
(Rust `self.board[y].iter().all(|px| !px.is_empty())`). -/
def isFullRow (b : Board) (y : Nat) : Bool :=
  (List.range GAME_WIDTH).all fun x => !(b y x).is_empty

def setRow (b : Board) (y : Nat) (r : Nat → Pixel) : Board :=
  fun y' x => if y' = y then r x else b y' x

def emptyRowPx : Nat → Pixel := fun _ => Pixel.Empty

/-- The compaction loop of Rust `Game::compact_board`:
`for y in (0..GAME_HEIGHT).rev()` with the running `shift_up` counter.
`compactFrom b shift (y + 1)` processes rows `y, y - 1, …, 0`. -/
def compactFrom (b : Board) (shift : Nat) : Nat → Board × Nat
  | 0 => (b, shift)
  | y + 1 =>
    if isFullRow b y then
      compactFrom b (shift + 1) y
    else if 0 < shift then
      compactFrom (setRow (setRow b (y + shift) (b y)) y emptyRowPx) shift y
    else
      compactFrom b shift y

/-- The scoring table of `compact_board`; `none` is the
`panic!("unexpected {} lines cleared")` arm. -/
def scoreFor : Nat → Option Nat
  | 0 => some 0
  | 1 => some 40
  | 2 => some 100
  | 3 => some 300
  | 4 => some 1200
  | _ => none

/-- Rust `Game::compact_board`: run the shift loop over all rows, add the
clear count to `cleared`, recompute `level`, then add `level` times the
table value to `points` (panicking on a clear count above 4). -/
def compact_board (g : Game) : Except GameError Game :=
  let bk := compactFrom g.board 0 GAME_HEIGHT
  let cleared := g.cleared + bk.2
  let level := cleared / 10 + 1
  match scoreFor bk.2 with
  | none => Except.error (GameError.panics .tooManyLinesCleared)
  | some s =>
    Except.ok { g with board := bk.1, cleared := cleared, level := level,
                       points := g.points + level * s }

/-- Integer frames-per-row per level index.  Rust stores a gravity table
`ROWS_PER_FRAME: [f32; 15]` and computes
`max(1, (1.0 / rows_per_frame) as usize)`; this list holds those 15
already-evaluated integers (the `f32` divisions land far from integer
boundaries, so the truncations are exact). -/
def FRAMES_PER_ROW : List Nat :=
  [59, 47, 37, 28, 21, 15, 11, 8, 5, 3, 2, 1, 1, 1, 1]

/-- `max(1, (1.0 / ROWS_PER_FRAME[min(level, 15) - 1]) as usize)`.  Levels
produced by the engine are always ≥ 1 (`level = cleared / 10 + 1`); Rust
would panic by usize underflow on `level = 0`, which no operation produces. -/
def frames_per_row (level : Nat) : Nat :=
  FRAMES_PER_ROW.getD (min level 15 - 1) 1

/-- Rust `Game::iterate`: compact (and score), then on ticks divisible by
the gravity interval either drop the falling piece one row, count down its
lock delay, or lock it and respawn; finally advance the tick counter. -/
def Game.iterate (g0 : Game) : Except GameError Game := do
  let g ← compact_board g0
  let fpr := frames_per_row g.level
  if g.tick % fpr = 0 then
    match g.falling with
    | none => Except.error (GameError.panics .noFallingPieceIterate)
    | some fp =>
      if is_touching_ground fp g.board then
        if fp.lock_delay = 0 then
          let g' ← destroy_falling_and_respawn g
          Except.ok { g' with tick := g'.tick + 1 }
        else
          Except.ok { g with falling := some { fp with lock_delay := fp.lock_delay - 1 },
                             tick := g.tick + 1 }
      else
        Except.ok { g with falling := some { fp with pos := (fp.pos.1, fp.pos.2 + 1) },
                           tick := g.tick + 1 }
  else
    Except.ok { g with tick := g.tick + 1 }

/-- Rust `Game::move_falling_piece`: try the candidate position; commit it
(with the checked lock-delay reset) only when the oracle reports no
intersection, otherwise change nothing. -/
def move_falling_piece (dx dy : Int) (g : Game) : Except GameError Game :=
  match g.falling with
  | none => Except.error (GameError.panics .noFallingPieceMove)
  | some fp =>
    let mask := g.mask_map fp.id fp.mask_idx
    let new_pos : Int × Int := (fp.pos.1 + dx, fp.pos.2 + dy)
    if intersects_with mask new_pos g.board then
      Except.ok g
    else
      Except.ok { g with falling := some (checked_reset_lock_delay { fp with pos := new_pos }) }

/-- The fixed kick-offset candidate list of `Game::rotate_falling_piece`,
in source order. -/
def kickOffsets : List (Int × Int) :=
  [(0, 0), (0, -1), (0, -2), (0, 1), (0, 2), (-1, 0), (-2, 0), (1, 0), (2, 0)]

/-- The `for (dx, dy) in …` loop of `rotate_falling_piece`: return the first
shifted position at which the new mask does not intersect, if any. -/
def tryKicks (mask : Mask) (pos : Int × Int) (b : Board) :
    List (Int × Int) → Option (Int × Int)
  | [] => none
  | off :: rest =>
    let p : Int × Int := (pos.1 + off.1, pos.2 + off.2)
    if intersects_with mask p b then tryKicks mask pos b rest else some p

/-- Rust `Game::rotate_falling_piece`.  The new rotation index is
`((mask_idx as isize + di % 4 + 4) % 4) as usize` with Rust's truncated `%`
(`Int.tmod`); the operand of the outer `%` is nonnegative, so Rust's `%`
and Lean's `emod` agree there. -/
def rotate_falling_piece (di : Int) (g : Game) : Except GameError Game :=
  match g.falling with
  | none => Except.error (GameError.panics .noFallingPieceRotate)
  | some fp =>
    let new_idx : Fin 4 :=
      ⟨(((fp.mask_idx.val : Int) + Int.tmod di 4 + 4) % 4).toNat, by
        have h1 := Int.emod_nonneg ((fp.mask_idx.val : Int) + Int.tmod di 4 + 4)
          (by norm_num : (4 : Int) ≠ 0)
        have h2 := Int.emod_lt_of_pos ((fp.mask_idx.val : Int) + Int.tmod di 4 + 4)
          (by norm_num : (0 : Int) < 4)
        omega⟩
    let new_mask := g.mask_map fp.id new_idx
    match tryKicks new_mask fp.pos g.board kickOffsets with
    | some p =>
      Except.ok { g with falling := some (checked_reset_lock_delay
        { fp with pos := p, mask_idx := new_idx, mask := new_mask }) }
    | none => Except.ok g

/-- The `while !intersects_with(mask, (pos.0, pos.1 + delta + 1), …)` search
of `Game::hard_drop`, with explicit fuel.  For any mask with at least one
set cell the Rust loop terminates within `(GAME_HEIGHT - pos.1) + 1` probes
(a set cell pushed that far is below the bottom border); for the all-empty
mask the Rust loop never terminates, and the fuel bound is the modelling
cut-off. -/
def dropDelta (mask : Mask) (pos : Int × Int) (b : Board) : Nat → Nat → Nat
  | 0, delta => delta
  | fuel + 1, delta =>
    if intersects_with mask (pos.1, pos.2 + (delta : Int) + 1) b then
      delta
    else
      dropDelta mask pos b fuel (delta + 1)

/-- Rust `Game::hard_drop`: compact, probe downward to the landing distance,
commit the landing position, lock-and-respawn, then award
`delta + 1` points. -/
def hard_drop (g0 : Game) : Except GameError Game := do
  let g ← compact_board g0
  match g.falling with
  | none => Except.error (GameError.panics .noFallingPieceDrop)
  | some fp =>
    let delta := dropDelta fp.mask fp.pos g.board (((GAME_HEIGHT : Int) - fp.pos.2).toNat + 1) 0
    let g2 := { g with falling := some { fp with pos := (fp.pos.1, fp.pos.2 + (delta : Int)) } }
    let g3 ← destroy_falling_and_respawn g2
    Except.ok { g3 with points := g3.points + (delta + 1) }

/-- Rust `Game::switch_hold`: guarded by `can_switch`; stash the falling
piece's kind and spawn the previously held kind (or the next queued piece).
Note the guard-failure path is a silent no-op and that neither `spawn` nor
`spawn_with_id` touches `can_switch`. -/
def switch_hold (g : Game) : Except GameError Game :=
  if g.can_switch then
    match g.falling with
    | none => Except.error (GameError.panics .noFallingPieceSwap)
    | some fp =>
      let g' := { g with can_switch := false, falling := none, hold := some fp.id }
      match g.hold with
      | some id => spawn_with_id id g'
      | none => spawn g'
  else
    Except.ok g

/-- Rust `Game::new` (parameterised by the loaded mask table and the RNG
oracle): fresh counters, empty board, a freshly drawn queue, then an
immediate spawn (`.tap(Game::spawn)`). -/
def game_new (mm : MaskMap) (choices : Nat → Nat) : Except GameError Game :=
  spawn { mask_map := mm, tick := 0, points := 0, level := 1, cleared := 0,
          board := emptyBoard, piece_queue := PieceQueue.new choices,
          falling := none, hold := none, can_switch := true }

/-- A mask with a single set cell at relative position (0, 0); used to build
small concrete witness states (the mask tables are injected state, so any
mask table is a legal argument of the operations). -/
def cellMask : Mask := fun r c => decide (r = 0 ∧ c = 0)

def constMaskMap (m : Mask) : MaskMap := fun _ _ => m

def demoChoices : Nat → Nat := fun _ => 0

def demoQueue : PieceQueue := PieceQueue.new demoChoices

def demoFp : FallingPiece :=
  { id := .IBlock, pos := (0, 0), mask_idx := 0, mask := cellMask,
    lock_delay := 5, lock_delay_resets := 10 }

def demoGame : Game :=
  { mask_map := constMaskMap cellMask, tick := 0, points := 0, level := 1, cleared := 0,
    board := emptyBoard, piece_queue := demoQueue, falling := some demoFp,
    hold := none, can_switch := true }

/-- C3.  `move_falling_piece` with an active piece: if the oracle reports no
intersection of the current mask (looked up from the mask table) at
`(x + dx, y + dy)`, the position becomes the candidate and the lock-delay
counter is reset to 5 (with the budget decremented) exactly when the counter
was already below 5 and the budget was positive; on intersection the whole
state is returned unchanged. -/
theorem c3_move_characterisation (g : Game) (fp : FallingPiece) (dx dy : Int)
    (h : g.falling = some fp) :
    (intersects_with (g.mask_map fp.id fp.mask_idx) (fp.pos.1 + dx, fp.pos.2 + dy) g.board
        = false →
      move_falling_piece dx dy g =
        Except.ok { g with
          falling := some { fp with
            pos := (fp.pos.1 + dx, fp.pos.2 + dy),
            lock_delay :=
              if fp.lock_delay < 5 ∧ 0 < fp.lock_delay_resets then 5 else fp.lock_delay,
            lock_delay_resets :=
              if fp.lock_delay < 5 ∧ 0 < fp.lock_delay_resets then fp.lock_delay_resets - 1
              else fp.lock_delay_resets } }) ∧
    (intersects_with (g.mask_map fp.id fp.mask_idx) (fp.pos.1 + dx, fp.pos.2 + dy) g.board
        = true →
      move_falling_piece dx dy g = Except.ok g) := by
  constructor
  · intro hfree
    simp only [move_falling_piece, h, hfree, Bool.false_eq_true, if_false]
    simp only [checked_reset_lock_delay, LOCK_DELAY]
    split
    · rfl
    · rfl
  · intro hhit
    simp only [move_falling_piece, h, hhit, if_true]

/-- Witness for C3: in `demoGame` the single-cell piece at (0,0) can move
right (committing the new position, with no lock-delay reset since the
counter is full) and is silently refused a move to the left (off the
board). -/
theorem c3_move_witness :
    move_falling_piece 1 0 demoGame =
      Except.ok { demoGame with
        falling := some { demoFp with
          pos := ((0 : Int) + 1, (0 : Int) + 0),
          lock_delay :=
            if demoFp.lock_delay < 5 ∧ 0 < demoFp.lock_delay_resets then 5
            else demoFp.lock_delay,
          lock_delay_resets :=
            if demoFp.lock_delay < 5 ∧ 0 < demoFp.lock_delay_resets then
              demoFp.lock_delay_resets - 1
            else demoFp.lock_delay_resets } } ∧
    move_falling_piece (-1) 0 demoGame = Except.ok demoGame :=
  ⟨(c3_move_characterisation demoGame demoFp 1 0 rfl).1 (by decide),
   (c3_move_characterisation demoGame demoFp (-1) 0 rfl).2 (by decide)⟩

/-- C6.  `spawn_with_id`: if the kind's rotation-0 mask at the fixed
top-centre position `(GAME_WIDTH / 2 - 2, 0) = (3, 0)` intersects the board,
the outcome is the distinct terminal `lost` value carrying the final points,
level and cleared-lines counters (in Rust, the `Game::lose` panic whose
payload carries exactly those three counters, distinguishable from every
invariant-violation panic); otherwise the piece is created there with
rotation index 0 and a full lock-delay counter. -/
theorem c6_spawn_characterisation (g : Game) (id : PieceId) :
    (intersects_with (g.mask_map id 0) (3, 0) g.board = true →
      spawn_with_id id g = Except.error (GameError.lost g.points g.level g.cleared)) ∧
    (intersects_with (g.mask_map id 0) (3, 0) g.board = false →
      ∃ fp, spawn_with_id id g = Except.ok { g with falling := some fp } ∧
        fp.id = id ∧ fp.pos = (3, 0) ∧ fp.mask_idx = 0 ∧ fp.mask = g.mask_map id 0 ∧
        fp.lock_delay = LOCK_DELAY ∧ fp.lock_delay_resets = 10) := by
  have hpos : ((GAME_WIDTH : Int) / 2 - 2, (0 : Int)) = ((3 : Int), (0 : Int)) := by
    norm_num [GAME_WIDTH]
  constructor
  · intro hhit
    simp only [spawn_with_id, hpos, hhit, if_true]
  · intro hfree
    refine ⟨{ id := id, pos := (3, 0), mask_idx := 0, mask := g.mask_map id 0,
              lock_delay := LOCK_DELAY, lock_delay_resets := 10 },
            ?_, rfl, rfl, rfl, rfl, rfl, rfl⟩
    simp only [spawn_with_id, hpos, hfree, Bool.false_eq_true, if_false]
def c6Base : Game := { demoGame with falling := none }

def c6FullBoardGame : Game :=
  { demoGame with board := fun _ _ => Pixel.Full .IBlock, points := 7, level := 2,
                  cleared := 11 }

/-- Witness for C6: spawning onto the empty board succeeds and places the
piece at (3,0); spawning onto an everywhere-full board reports `lost` with
the state's counters. -/
theorem c6_spawn_witness :
    (∃ fp, spawn_with_id PieceId.IBlock c6Base = Except.ok { c6Base with falling := some fp } ∧
      fp.id = PieceId.IBlock ∧ fp.pos = (3, 0) ∧ fp.mask_idx = 0 ∧
      fp.mask = c6Base.mask_map PieceId.IBlock 0 ∧
      fp.lock_delay = LOCK_DELAY ∧ fp.lock_delay_resets = 10) ∧
    spawn_with_id PieceId.IBlock c6FullBoardGame
      = Except.error (GameError.lost 7 2 11) :=
  ⟨(c6_spawn_characterisation c6Base PieceId.IBlock).2 (by decide),
   (c6_spawn_characterisation c6FullBoardGame PieceId.IBlock).1 (by decide)⟩

/-- `spawn_with_id` never touches the `can_switch` flag. -/
theorem spawn_with_id_can_switch {id : PieceId} {g g' : Game}
    (h : spawn_with_id id g = Except.ok g') : g'.can_switch = g.can_switch := by
  simp only [spawn_with_id] at h
  split at h
  · exact Except.noConfusion h
  · injection h with h
    subst h
    rfl

/-- `spawn` never touches the `can_switch` flag. -/
theorem spawn_can_switch {g g' : Game} (h : spawn g = Except.ok g') :
    g'.can_switch = g.can_switch := by
  unfold spawn at h
  split at h
  · exact Except.noConfusion h
  · have h2 := spawn_with_id_can_switch h
    exact h2

/-- Binding `switch_hold` onto an outcome all of whose success states have
the can-switch flag cleared changes nothing. -/
theorem bind_switch_hold_cleared (e : Except GameError Game)
    (h : ∀ g', e = Except.ok g' → g'.can_switch = false) :
    e.bind switch_hold = e := by
  cases e with
  | error err => rfl
  | ok g' =>
    have hcs := h g' rfl
    show switch_hold g' = Except.ok g'
    simp only [switch_hold, hcs, Bool.false_eq_true, if_false]

/-- C7 counterexample.  The claim states the can-switch-hold flag is
re-enabled "on each new spawn"; but the spawn performed by `switch_hold`
itself leaves the flag false (it is re-enabled only by the lock path,
`destroy_falling_and_respawn`).  Concretely: `switch_hold` on `demoGame`
spawns a new falling piece, yet the flag is false afterwards. -/
theorem c7_counterexample :
    (switch_hold demoGame).map (fun g => (g.falling.isSome, g.can_switch))
      = Except.ok (true, false) := by
  rfl

/-- C7 as amended.  The flag is set false on use and re-enabled on each
lock-triggered respawn (`destroy_falling_and_respawn`), not on every spawn;
consequently a second `switch_hold` directly after a first one (no
intervening lock) is a silent no-op: binding a second call onto the first
changes nothing. -/
theorem c7_switch_hold_noop (g : Game) :
    (switch_hold g).bind switch_hold = switch_hold g := by
  cases hcs : g.can_switch with
  | false =>
    have hnoop : switch_hold g = Except.ok g := by
      simp only [switch_hold, hcs, Bool.false_eq_true, if_false]
    rw [hnoop]
    show switch_hold g = Except.ok g
    exact hnoop
  | true =>
    rw [switch_hold]
    simp only [hcs, if_true]
    cases hfall : g.falling with
    | none => rfl
    | some fp =>
      cases hhold : g.hold with
      | some id =>
        refine bind_switch_hold_cleared _ (fun g' hg' => ?_)
        have h2 := spawn_with_id_can_switch hg'
        exact h2
      | none =>
        refine bind_switch_hold_cleared _ (fun g' hg' => ?_)
        have h2 := spawn_can_switch hg'
        exact h2

/-- If the offsets before index `i` all make the mask intersect and offset
`i` does not, the kick loop returns the position shifted by offset `i`. -/
theorem tryKicks_first_success (mask : Mask) (pos : Int × Int) (b : Board) :
    ∀ (L : List (Int × Int)) (i : Nat), i < L.length →
      (∀ j, j < i →
        intersects_with mask
          (pos.1 + (L.getD j (0, 0)).1, pos.2 + (L.getD j (0, 0)).2) b = true) →
      intersects_with mask
        (pos.1 + (L.getD i (0, 0)).1, pos.2 + (L.getD i (0, 0)).2) b = false →
      tryKicks mask pos b L
        = some (pos.1 + (L.getD i (0, 0)).1, pos.2 + (L.getD i (0, 0)).2) := by
  intro L
  induction L with
  | nil =>
    intro i hi
    exact absurd hi (by simp)
  | cons off rest ih =>
    intro i hi hbefore hfree
    cases i with
    | zero =>
      simp only [List.getD_cons_zero] at hfree
      simp only [tryKicks, hfree, Bool.false_eq_true, if_false, List.getD_cons_zero]
    | succ i =>
      have h0 : intersects_with mask (pos.1 + off.1, pos.2 + off.2) b = true := by
        have := hbefore 0 (Nat.succ_pos i)
        simpa using this
      simp only [tryKicks, h0, if_true, List.getD_cons_succ]
      exact ih i (by simpa using hi)
        (fun j hj => by simpa using hbefore (j + 1) (by omega)) (by simpa using hfree)

/-- If every offset makes the mask intersect, the kick loop fails. -/
theorem tryKicks_all_fail (mask : Mask) (pos : Int × Int) (b : Board) :
    ∀ (L : List (Int × Int)),
      (∀ off ∈ L, intersects_with mask (pos.1 + off.1, pos.2 + off.2) b = true) →
      tryKicks mask pos b L = none := by
  intro L
  induction L with
  | nil => intro _; rfl
  | cons off rest ih =>
    intro hall
    have h0 := hall off (List.mem_cons_self off rest)
    simp only [tryKicks, h0, if_true]
    exact ih (fun o ho => hall o (List.mem_cons_of_mem off ho))

/-- C2.  `rotate_falling_piece` with an active piece and `di ∈ {+1, -1}`:
the new rotation index `k` satisfies `(k : Int) = ((mask_idx + di) % 4`
normalized to non-negative`)`; the nine offsets of `kickOffsets` are tried
in exactly that order against the new rotation's mask, and at the first
non-intersecting offset the new index, mask and shifted position are
committed (with the checked lock-delay reset) and no further offset is
tried; if all nine offsets intersect, the state is returned unchanged. -/
theorem c2_rotate_characterisation :
    (∀ (g : Game) (fp : FallingPiece) (di : Int) (k : Fin 4) (i : Nat),
      g.falling = some fp → (di = 1 ∨ di = -1) →
      (k.val : Int) = ((fp.mask_idx.val : Int) + di) % 4 →
      i < kickOffsets.length →
      (∀ j, j < i →
        intersects_with (g.mask_map fp.id k)
          (fp.pos.1 + (kickOffsets.getD j (0, 0)).1,
           fp.pos.2 + (kickOffsets.getD j (0, 0)).2) g.board = true) →
      intersects_with (g.mask_map fp.id k)
        (fp.pos.1 + (kickOffsets.getD i (0, 0)).1,
         fp.pos.2 + (kickOffsets.getD i (0, 0)).2) g.board = false →
      rotate_falling_piece di g =
        Except.ok { g with
          falling := some { fp with
            pos := (fp.pos.1 + (kickOffsets.getD i (0, 0)).1,
                    fp.pos.2 + (kickOffsets.getD i (0, 0)).2),
            mask_idx := k,
            mask := g.mask_map fp.id k,
            lock_delay :=
              if fp.lock_delay < 5 ∧ 0 < fp.lock_delay_resets then 5 else fp.lock_delay,
            lock_delay_resets :=
              if fp.lock_delay < 5 ∧ 0 < fp.lock_delay_resets then fp.lock_delay_resets - 1
              else fp.lock_delay_resets } }) ∧
    (∀ (g : Game) (fp : FallingPiece) (di : Int) (k : Fin 4),
      g.falling = some fp → (di = 1 ∨ di = -1) →
      (k.val : Int) = ((fp.mask_idx.val : Int) + di) % 4 →
      (∀ off ∈ kickOffsets,
        intersects_with (g.mask_map fp.id k)
          (fp.pos.1 + off.1, fp.pos.2 + off.2) g.board = true) →
      rotate_falling_piece di g = Except.ok g) := by
  have hidx : ∀ (m : Fin 4) (di : Int), di = 1 ∨ di = -1 →
      ∀ k : Fin 4, (k.val : Int) = ((m.val : Int) + di) % 4 →
      (⟨(((m.val : Int) + Int.tmod di 4 + 4) % 4).toNat, by
        have h1 := Int.emod_nonneg ((m.val : Int) + Int.tmod di 4 + 4)
          (by norm_num : (4 : Int) ≠ 0)
        have h2 := Int.emod_lt_of_pos ((m.val : Int) + Int.tmod di 4 + 4)
          (by norm_num : (0 : Int) < 4)
        omega⟩ : Fin 4) = k := by
    intro m di hdi k hk
    apply Fin.ext
    show (((m.val : Int) + Int.tmod di 4 + 4) % 4).toNat = k.val
    have hm : m.val < 4 := m.isLt
    have hk4 : k.val < 4 := k.isLt
    rcases hdi with h | h
    · subst h
      rw [show Int.tmod 1 4 = 1 from by decide]
      omega
    · subst h
      rw [show Int.tmod (-1) 4 = -1 from by decide]
      omega
  constructor
  · intro g fp di k i hfall hdi hk hi hbefore hfree
    have hkeq := hidx fp.mask_idx di hdi k hk
    simp only [rotate_falling_piece, hfall, hkeq]
    rw [tryKicks_first_success (g.mask_map fp.id k) fp.pos g.board kickOffsets i hi
      hbefore hfree]
    simp only [checked_reset_lock_delay, LOCK_DELAY]
    split
    · rfl
    · rfl
  · intro g fp di k hfall hdi hk hall
    have hkeq := hidx fp.mask_idx di hdi k hk
    simp only [rotate_falling_piece, hfall, hkeq]
    rw [tryKicks_all_fail (g.mask_map fp.id k) fp.pos g.board kickOffsets hall]

/-- The board of the C2 witness: cells blocking the first seven kick offsets
around position (4,4) for a single-cell mask, leaving only the
(+1, 0) kick free. -/
def c2Board : Board := fun y x =>
  if (y, x) ∈ [(4, 4), (3, 4), (2, 4), (5, 4), (6, 4), (4, 3), (4, 2)] then
    Pixel.Full .IBlock
  else
    Pixel.Empty

def c2Fp : FallingPiece :=
  { id := .IBlock, pos := (4, 4), mask_idx := 0, mask := cellMask,
    lock_delay := 5, lock_delay_resets := 10 }

def c2Game : Game := { demoGame with board := c2Board, falling := some c2Fp }

/-- Witness for C2: with offsets (0,0), (0,±1), (0,±2), (-1,0), (-2,0) all
blocked and (1,0) free, a clockwise rotation from index 0 lands on index 1
at exactly the (+1,0)-kicked position (offset index 7). -/
theorem c2_rotate_witness :
    rotate_falling_piece 1 c2Game =
      Except.ok { c2Game with
        falling := some { c2Fp with
          pos := (c2Fp.pos.1 + (kickOffsets.getD 7 (0, 0)).1,
                  c2Fp.pos.2 + (kickOffsets.getD 7 (0, 0)).2),
          mask_idx := (1 : Fin 4),
          mask := c2Game.mask_map c2Fp.id 1,
          lock_delay :=
            if c2Fp.lock_delay < 5 ∧ 0 < c2Fp.lock_delay_resets then 5 else c2Fp.lock_delay,
          lock_delay_resets :=
            if c2Fp.lock_delay < 5 ∧ 0 < c2Fp.lock_delay_resets then c2Fp.lock_delay_resets - 1
            else c2Fp.lock_delay_resets } } :=
  c2_rotate_characterisation.1 c2Game c2Fp 1 1 7 rfl (Or.inl rfl) (by decide) (by decide)
    (by decide) (by decide)

/-- The fuel-indexed probe loop of `hard_drop` stops exactly at the first
intersecting distance. -/
theorem dropDelta_spec (mask : Mask) (pos : Int × Int) (b : Board) :
    ∀ (fuel d k : Nat), d ≤ k → k - d < fuel →
      (∀ j, d ≤ j → j < k →
        intersects_with mask (pos.1, pos.2 + (j : Int) + 1) b = false) →
      intersects_with mask (pos.1, pos.2 + (k : Int) + 1) b = true →
      dropDelta mask pos b fuel d = k := by
  intro fuel
  induction fuel with
  | zero =>
    intro d k h1 h2 _ _
    omega
  | succ fuel ih =>
    intro d k hdk hfuel hmid hk
    by_cases heq : d = k
    · subst heq
      simp only [dropDelta, hk, if_true]
    · have hd : intersects_with mask (pos.1, pos.2 + (d : Int) + 1) b = false :=
        hmid d le_rfl (by omega)
      simp only [dropDelta, hd, Bool.false_eq_true, if_false]
      exact ih (d + 1) k (by omega) (by omega) (fun j hj1 hj2 => hmid j (by omega) hj2) hk

/-- If all distances below `k` are non-intersecting and `k` intersects, then
`k` is below the fuel bound `hard_drop` uses (the intersecting set cell was
still inside the board one row higher). -/
theorem dropDelta_fuel_bound (mask : Mask) (pos : Int × Int) (b : Board) (k : Nat)
    (hbefore : ∀ j, j < k →
      intersects_with mask (pos.1, pos.2 + (j : Int) + 1) b = false)
    (hk : intersects_with mask (pos.1, pos.2 + (k : Int) + 1) b = true) :
    k < ((GAME_HEIGHT : Int) - pos.2).toNat + 1 := by
  show k < ((20 : Int) - pos.2).toNat + 1
  cases k with
  | zero => omega
  | succ k' =>
    have hprev := hbefore k' (Nat.lt_succ_self k')
    obtain ⟨ry, rx, hset, _⟩ :=
      (intersects_with_eq_true_iff mask (pos.1, pos.2 + ((k' + 1 : Nat) : Int) + 1) b).mp hk
    have hiff := intersects_with_eq_true_iff mask (pos.1, pos.2 + ((k' : Nat) : Int) + 1) b
    rw [hprev] at hiff
    have hnone : ¬ ∃ ry rx : Fin 4, mask ry rx = true ∧
        ((pos.1, pos.2 + ((k' : Nat) : Int) + 1).1 + (rx.val : Int) < 0 ∨
         (GAME_WIDTH : Int) ≤ (pos.1, pos.2 + ((k' : Nat) : Int) + 1).1 + (rx.val : Int) ∨
         (pos.1, pos.2 + ((k' : Nat) : Int) + 1).2 + (ry.val : Int) < 0 ∨
         (GAME_HEIGHT : Int) ≤ (pos.1, pos.2 + ((k' : Nat) : Int) + 1).2 + (ry.val : Int) ∨
         (b ((pos.1, pos.2 + ((k' : Nat) : Int) + 1).2 + (ry.val : Int)).toNat
            ((pos.1, pos.2 + ((k' : Nat) : Int) + 1).1 + (rx.val : Int)).toNat).is_empty
           = false) := by
      rw [← hiff]
      simp
    push_neg at hnone
    have hcell := hnone ry rx hset
    have hlt : (pos.1, pos.2 + ((k' : Nat) : Int) + 1).2 + (ry.val : Int) < (GAME_HEIGHT : Int) := by
      tauto
    have : pos.2 + (k' : Int) + 1 + (ry.val : Int) < 20 := by
      simpa [GAME_HEIGHT] using hlt
    omega

/-- `compact_board` changes only the board and the three counters. -/
theorem compact_board_frame {g g' : Game} (h : compact_board g = Except.ok g') :
    g'.falling = g.falling ∧ g'.mask_map = g.mask_map ∧ g'.piece_queue = g.piece_queue ∧
      g'.hold = g.hold ∧ g'.can_switch = g.can_switch ∧ g'.tick = g.tick := by
  simp only [compact_board] at h
  split at h
  · exact Except.noConfusion h
  · injection h with h
    subst h
    exact ⟨rfl, rfl, rfl, rfl, rfl, rfl⟩

/-- C5 (amended: the drop distance is measured against the board left by the
compaction that `hard_drop` itself performs first).  If, on the compacted
state `gc`, each of the `k` one-row descents of the falling piece is
non-intersecting and the `(k+1)`-st intersects, then `hard_drop` moves the
piece exactly `k` rows down, performs the same lock-and-respawn sequence as
a natural lock (`destroy_falling_and_respawn`, bypassing the lock-delay
countdown), and adds exactly `k + 1` points on top of the line-clear
scoring that the compaction awarded. -/
theorem c5_hard_drop_characterisation (g gc : Game) (fp : FallingPiece) (k : Nat)
    (hc : compact_board g = Except.ok gc) (hfall : gc.falling = some fp)
    (hbefore : ∀ j, j < k →
      intersects_with fp.mask (fp.pos.1, fp.pos.2 + (j : Int) + 1) gc.board = false)
    (hk : intersects_with fp.mask (fp.pos.1, fp.pos.2 + (k : Int) + 1) gc.board = true) :
    hard_drop g = Except.map (fun g3 => { g3 with points := g3.points + (k + 1) })
      (destroy_falling_and_respawn
        { gc with falling := some { fp with pos := (fp.pos.1, fp.pos.2 + (k : Int)) } }) := by
  have hdelta :
      dropDelta fp.mask fp.pos gc.board (((GAME_HEIGHT : Int) - fp.pos.2).toNat + 1) 0 = k :=
    dropDelta_spec fp.mask fp.pos gc.board _ 0 k (Nat.zero_le k)
      (by simpa using dropDelta_fuel_bound fp.mask fp.pos gc.board k hbefore hk)
      (fun j _ hj => hbefore j hj) hk
  rw [hard_drop]
  rw [hc]
  show (match gc.falling with
    | none => Except.error (GameError.panics .noFallingPieceDrop)
    | some fp =>
      let delta := dropDelta fp.mask fp.pos gc.board (((GAME_HEIGHT : Int) - fp.pos.2).toNat + 1) 0
      let g2 := { gc with falling := some { fp with pos := (fp.pos.1, fp.pos.2 + (delta : Int)) } }
      (destroy_falling_and_respawn g2).bind
        fun g3 => Except.ok { g3 with points := g3.points + (delta + 1) }) = _
  rw [hfall]
  simp only [hdelta]
  cases destroy_falling_and_respawn
      { gc with falling := some { fp with pos := (fp.pos.1, fp.pos.2 + (k : Int)) } } with
  | error e => rfl
  | ok g3 => rfl

/-- Witness for C5 (amended): on `demoGame` (single-cell piece at (0,0),
empty board, compaction a no-op) the drop distance is 19 and `hard_drop`
lands the piece 19 rows down, locks-and-respawns, and adds 20 points. -/
theorem c5_hard_drop_witness :
    hard_drop demoGame = Except.map (fun g3 => { g3 with points := g3.points + (19 + 1) })
      (destroy_falling_and_respawn
        { demoGame with
          falling := some { demoFp with
            pos := (demoFp.pos.1, demoFp.pos.2 + ((19 : Nat) : Int)) } }) :=
  c5_hard_drop_characterisation demoGame demoGame demoFp 19 rfl rfl (by decide) (by decide)

def c5cBoard : Board := fun y _ => if y = 19 then Pixel.Full .IBlock else Pixel.Empty

def c5cGame : Game := { demoGame with board := c5cBoard }

/-- C5 counterexample against the claim as stated.  In `c5cGame` the falling
piece's maximal legal downward travel on the state's own board is k = 18
(each of the 18 one-row descents is free, the 19-th hits the full bottom
row), so the claim predicts a landing with the piece cell in row 18 and
18 + 1 = 19 points in addition to the 40 points of line-clear scoring
(59 in total).  The code instead compacts first, which clears the full
bottom row, and then travels 19 rows: the locked cell ends in row 19 and
the points total 40 + 20 = 60. -/
theorem c5_counterexample :
    ((List.range 18).all fun j =>
      !intersects_with demoFp.mask (demoFp.pos.1, demoFp.pos.2 + (j : Int) + 1)
        c5cGame.board) = true ∧
    intersects_with demoFp.mask (demoFp.pos.1, demoFp.pos.2 + (18 : Int) + 1)
      c5cGame.board = true ∧
    (hard_drop c5cGame).map (fun g => (g.points, g.board 19 0, g.board 18 0))
      = Except.ok (60, Pixel.Full .IBlock, Pixel.Empty) := by
  refine ⟨by decide, by decide, ?_⟩
  decide

/-- Number of fully-occupied rows with index in `[y, GAME_HEIGHT)`. -/
def fullFrom (b : Board) (y : Nat) : Nat :=
  (List.range' y (GAME_HEIGHT - y)).countP fun z => isFullRow b z

/-- Number of fully-occupied rows strictly below row `w` (larger index). -/
def fullBelow (b : Board) (w : Nat) : Nat := fullFrom b (w + 1)

/-- Total number of fully-occupied rows of the board. -/
def fullCount (b : Board) : Nat := fullFrom b 0

theorem fullFrom_ge (b : Board) (y : Nat) (h : GAME_HEIGHT ≤ y) : fullFrom b y = 0 := by
  unfold fullFrom
  rw [show GAME_HEIGHT - y = 0 from by omega]
  rfl

theorem fullFrom_succ (b : Board) (y : Nat) (h : y < GAME_HEIGHT) :
    fullFrom b y = (if isFullRow b y then 1 else 0) + fullFrom b (y + 1) := by
  unfold fullFrom
  rw [show GAME_HEIGHT - y = (GAME_HEIGHT - (y + 1)) + 1 from by omega]
  rw [List.range'_succ y (GAME_HEIGHT - (y + 1)) 1, List.countP_cons]
  omega

theorem fullFrom_le (b : Board) (y : Nat) : fullFrom b y ≤ GAME_HEIGHT - y := by
  unfold fullFrom
  calc (List.range' y (GAME_HEIGHT - y)).countP (fun z => isFullRow b z)
      ≤ (List.range' y (GAME_HEIGHT - y)).length := List.countP_le_length _
    _ = GAME_HEIGHT - y := by simp

/-- Splitting the full-row count at an intermediate row. -/
theorem fullFrom_split (b : Board) (v w : Nat) (hvw : v ≤ w) (hw : w ≤ GAME_HEIGHT) :
    fullFrom b v = (List.range' v (w - v)).countP (fun z => isFullRow b z) + fullFrom b w := by
  unfold fullFrom
  rw [← List.countP_append]
  congr 1
  have := List.range'_append v (w - v) (GAME_HEIGHT - w) 1
  rw [show v + 1 * (w - v) = w from by omega] at this
  rw [this]
  congr 1
  omega

/-- The landing position `w + fullBelow w` is strictly monotone in `w`
whenever the upper row `w` is not full. -/
theorem land_mono (b : Board) (v w : Nat) (hvw : v < w) (hw : w < GAME_HEIGHT)
    (hnf : isFullRow b w = false) :
    v + fullBelow b v < w + fullBelow b w := by
  unfold fullBelow
  have hsplit := fullFrom_split b (v + 1) (w + 1) (by omega) (by omega)
  have hc : (List.range' (v + 1) (w + 1 - (v + 1))).countP (fun z => isFullRow b z)
      ≤ w - v - 1 := by
    have happ := List.range'_append (v + 1) (w - v - 1) 1 1
    rw [show (v + 1) + 1 * (w - v - 1) = w from by omega] at happ
    rw [show w + 1 - (v + 1) = 1 + (w - v - 1) from by omega, ← happ, List.countP_append]
    have h1 : (List.range' w 1).countP (fun z => isFullRow b z) = 0 := by
      simp [List.range', hnf]
    have h2 : (List.range' (v + 1) (w - v - 1)).countP (fun z => isFullRow b z)
        ≤ w - v - 1 := by
      calc (List.range' (v + 1) (w - v - 1)).countP (fun z => isFullRow b z)
          ≤ (List.range' (v + 1) (w - v - 1)).length := List.countP_le_length _
        _ = w - v - 1 := by simp
    omega
  omega

/-- Landing positions of non-full rows are injective. -/
theorem land_inj (b : Board) (v w : Nat) (hv : v < GAME_HEIGHT) (hw : w < GAME_HEIGHT)
    (hnfv : isFullRow b v = false) (hnfw : isFullRow b w = false)
    (h : v + fullBelow b v = w + fullBelow b w) : v = w := by
  rcases Nat.lt_trichotomy v w with hlt | heq | hgt
  · exact absurd h (Nat.ne_of_lt (land_mono b v w hlt hw hnfw))
  · exact heq
  · exact absurd h.symm (Nat.ne_of_lt (land_mono b w v hgt hv hnfv))

/-- A non-full row lands inside the board…  -/
theorem land_lt (b : Board) (w : Nat) (hw : w < GAME_HEIGHT) :
    w + fullBelow b w < GAME_HEIGHT := by
  have := fullFrom_le b (w + 1)
  unfold fullBelow
  omega

/-- …and at or below the total full-row count. -/
theorem land_ge (b : Board) (w : Nat) (hw : w < GAME_HEIGHT)
    (hnf : isFullRow b w = false) : fullCount b ≤ w + fullBelow b w := by
  unfold fullCount fullBelow
  have hsplit := fullFrom_split b 0 (w + 1) (by omega) (by omega)
  have hc : (List.range' 0 (w + 1 - 0)).countP (fun z => isFullRow b z) ≤ w := by
    have happ := List.range'_append 0 w 1 1
    rw [show 0 + 1 * w = w from by omega] at happ
    rw [show w + 1 - 0 = 1 + w from by omega, ← happ, List.countP_append]
    have h1 : (List.range' w 1).countP (fun z => isFullRow b z) = 0 := by
      simp [List.range', hnf]
    have h2 : (List.range' 0 w).countP (fun z => isFullRow b z) ≤ w := by
      calc (List.range' 0 w).countP (fun z => isFullRow b z)
          ≤ (List.range' 0 w).length := List.countP_le_length _
        _ = w := by simp
    omega
  omega

/-- Every position in `[y + fullFrom y, GAME_HEIGHT)` is the landing position
of some non-full row at or above it. -/
theorem land_exists (b : Board) :
    ∀ d y z, GAME_HEIGHT - y ≤ d → y + fullFrom b y ≤ z → z < GAME_HEIGHT →
      ∃ w, y ≤ w ∧ w < GAME_HEIGHT ∧ isFullRow b w = false ∧ w + fullBelow b w = z := by
  intro d
  induction d with
  | zero =>
    intro y z hd hz1 hz2
    rw [fullFrom_ge b y (by omega)] at hz1
    omega
  | succ d ih =>
    intro y z hd hz1 hz2
    by_cases hy : y < GAME_HEIGHT
    · rw [fullFrom_succ b y hy] at hz1
      by_cases hfull : isFullRow b y
      · rw [if_pos hfull] at hz1
        obtain ⟨w, hw1, hw2, hw3, hw4⟩ := ih (y + 1) z (by omega) (by omega) hz2
        exact ⟨w, by omega, hw2, hw3, hw4⟩
      · rw [if_neg hfull] at hz1
        by_cases hz : z = y + fullFrom b (y + 1)
        · exact ⟨y, le_rfl, hy, by simpa using hfull, by rw [hz]; rfl⟩
        · obtain ⟨w, hw1, hw2, hw3, hw4⟩ := ih (y + 1) z (by omega) (by omega) hz2
          exact ⟨w, by omega, hw2, hw3, hw4⟩
    · rw [fullFrom_ge b y (by omega)] at hz1
      omega

/-- The (unique) non-full row `w ∈ [lo, n)` whose landing position
`w + fullBelow w` is `z`, if any. -/
def firstLand (b : Board) (lo z : Nat) : Nat → Option Nat
  | 0 => none
  | n + 1 =>
    match firstLand b lo z n with
    | some w => some w
    | none =>
      if lo ≤ n ∧ isFullRow b n = false ∧ n + fullBelow b n = z then some n else none

theorem firstLand_some (b : Board) (lo z : Nat) :
    ∀ n w, firstLand b lo z n = some w →
      lo ≤ w ∧ w < n ∧ isFullRow b w = false ∧ w + fullBelow b w = z := by
  intro n
  induction n with
  | zero => intro w h; exact Option.noConfusion h
  | succ n ih =>
    intro w h
    unfold firstLand at h
    split at h
    · rename_i w' hfl
      injection h with hww
      subst hww
      obtain ⟨h1, h2, h3, h4⟩ := ih _ hfl
      exact ⟨h1, by omega, h3, h4⟩
    · split at h
      · rename_i hcond
        injection h with hn
        subst hn
        exact ⟨hcond.1, by omega, hcond.2.1, hcond.2.2⟩
      · exact Option.noConfusion h

theorem firstLand_complete (b : Board) (lo z : Nat) :
    ∀ n w, lo ≤ w → w < n → isFullRow b w = false → w + fullBelow b w = z →
      firstLand b lo z n ≠ none := by
  intro n
  induction n with
  | zero => intro w _ hw; omega
  | succ n ih =>
    intro w hlo hw hnf hland
    unfold firstLand
    cases hfl : firstLand b lo z n with
    | some w' => simp
    | none =>
      by_cases hwn : w < n
      · exact absurd hfl (ih w hlo hwn hnf hland)
      · have : w = n := by omega
        subst this
        simp only [hlo, hnf, hland, and_self, if_true]
        simp

/-- The canonical non-full row landing at `z`, from `firstLand`'s success and
completeness plus injectivity of landing positions. -/
theorem firstLand_eq_some (b : Board) (lo z w : Nat) (hlo : lo ≤ w)
    (hw : w < GAME_HEIGHT) (hnf : isFullRow b w = false)
    (hland : w + fullBelow b w = z) :
    firstLand b lo z GAME_HEIGHT = some w := by
  cases hfl : firstLand b lo z GAME_HEIGHT with
  | none => exact absurd hfl (firstLand_complete b lo z GAME_HEIGHT w hlo hw hnf hland)
  | some w' =>
    obtain ⟨h1, h2, h3, h4⟩ := firstLand_some b lo z GAME_HEIGHT w' hfl
    have : w' = w := land_inj b w' w h2 hw h3 hnf (by omega)
    rw [this]

/-- Raising the lower bound past a full row does not change `firstLand`. -/
theorem firstLand_lo_full (b : Board) (y z : Nat) (hfull : isFullRow b y = true) :
    ∀ n, firstLand b y z n = firstLand b (y + 1) z n := by
  intro n
  induction n with
  | zero => rfl
  | succ n ih =>
    unfold firstLand
    rw [ih]
    cases firstLand b (y + 1) z n with
    | some w => rfl
    | none =>
      by_cases hyn : y = n
      · subst hyn
        simp [hfull]
      · have hiff : (y ≤ n ∧ isFullRow b n = false ∧ n + fullBelow b n = z)
            ↔ (y + 1 ≤ n ∧ isFullRow b n = false ∧ n + fullBelow b n = z) := by
          constructor
          · rintro ⟨h1, h2, h3⟩; exact ⟨by omega, h2, h3⟩
          · rintro ⟨h1, h2, h3⟩; exact ⟨by omega, h2, h3⟩
        simp only [hiff]

/-- Raising the lower bound past a non-full row that does not land at `z`
does not change `firstLand`. -/
theorem firstLand_lo_miss (b : Board) (y z : Nat) (hmiss : y + fullBelow b y ≠ z) :
    ∀ n, firstLand b y z n = firstLand b (y + 1) z n := by
  intro n
  induction n with
  | zero => rfl
  | succ n ih =>
    unfold firstLand
    rw [ih]
    cases firstLand b (y + 1) z n with
    | some w => rfl
    | none =>
      by_cases hyn : y = n
      · subst hyn
        simp [hmiss]
      · have hiff : (y ≤ n ∧ isFullRow b n = false ∧ n + fullBelow b n = z)
            ↔ (y + 1 ≤ n ∧ isFullRow b n = false ∧ n + fullBelow b n = z) := by
          constructor
          · rintro ⟨h1, h2, h3⟩; exact ⟨by omega, h2, h3⟩
          · rintro ⟨h1, h2, h3⟩; exact ⟨by omega, h2, h3⟩
        simp only [hiff]

/-- Closed form of the board mid-way through the compaction loop: rows above
`y` (not yet processed) or outside the board are untouched; a processed
position holds the non-full row landing there, if one exists, the original
row if it is full (junk awaiting overwrite), or the empty row. -/
def midBoard (b0 : Board) (y : Nat) : Board := fun z x =>
  if z < y ∨ GAME_HEIGHT ≤ z then b0 z x
  else
    match firstLand b0 y z GAME_HEIGHT with
    | some w => b0 w x
    | none => if isFullRow b0 z then b0 z x else Pixel.Empty

theorem isFullRow_congr {b b' : Board} {y y' : Nat} (h : ∀ x, b y x = b' y' x) :
    isFullRow b y = isFullRow b' y' := by
  simp only [isFullRow, h]

theorem midBoard_untouched (b0 : Board) (y z x : Nat) (h : z < y ∨ GAME_HEIGHT ≤ z) :
    midBoard b0 y z x = b0 z x := by
  simp only [midBoard, h, if_pos]

/-- `firstLand` finds nothing at a position that is a processed row `y` when
row `y` cannot land on itself. -/
theorem firstLand_none_at (b0 : Board) (y z : Nat) (_hz : z < GAME_HEIGHT)
    (h : ∀ w, y ≤ w → w < GAME_HEIGHT → isFullRow b0 w = false →
      w + fullBelow b0 w ≠ z) :
    firstLand b0 y z GAME_HEIGHT = none := by
  cases hfl : firstLand b0 y z GAME_HEIGHT with
  | none => rfl
  | some w =>
    obtain ⟨h1, h2, h3, h4⟩ := firstLand_some b0 y z GAME_HEIGHT w hfl
    exact absurd h4 (h w h1 h2 h3)

/-- Processing a full row `y`: the board is unchanged and the closed form
advances. -/
theorem midBoard_step_full (b0 : Board) (y : Nat) (hy : y < GAME_HEIGHT)
    (hfull : isFullRow b0 y = true) :
    midBoard b0 (y + 1) = midBoard b0 y := by
  funext z x
  by_cases hz1 : z < y
  · rw [midBoard_untouched b0 (y + 1) z x (Or.inl (by omega)),
        midBoard_untouched b0 y z x (Or.inl hz1)]
  · by_cases hz2 : GAME_HEIGHT ≤ z
    · rw [midBoard_untouched b0 (y + 1) z x (Or.inr hz2),
          midBoard_untouched b0 y z x (Or.inr hz2)]
    · by_cases hzy : z = y
      · subst hzy
        rw [midBoard_untouched b0 (z + 1) z x (Or.inl (by omega))]
        have hnone : firstLand b0 z z GAME_HEIGHT = none := by
          apply firstLand_none_at b0 z z (by omega)
          intro w hw1 hw2 hw3
          by_cases hwz : w = z
          · subst hwz
            rw [hw3] at hfull
            exact absurd hfull (by simp)
          · omega
        simp only [midBoard, hnone]
        have : ¬ (z < z ∨ GAME_HEIGHT ≤ z) := by omega
        simp only [this, if_false, hfull, if_true]
      · have hcond : ¬ (z < y + 1 ∨ GAME_HEIGHT ≤ z) := by omega
        have hcond' : ¬ (z < y ∨ GAME_HEIGHT ≤ z) := by omega
        simp only [midBoard, hcond, hcond', if_false,
          firstLand_lo_full b0 y z hfull GAME_HEIGHT]

/-- Processing a non-full row `y` with no full rows below: nothing moves. -/
theorem midBoard_step_skip (b0 : Board) (y : Nat) (hy : y < GAME_HEIGHT)
    (hnf : isFullRow b0 y = false) (hs : fullFrom b0 (y + 1) = 0) :
    midBoard b0 (y + 1) = midBoard b0 y := by
  funext z x
  by_cases hz1 : z < y
  · rw [midBoard_untouched b0 (y + 1) z x (Or.inl (by omega)),
        midBoard_untouched b0 y z x (Or.inl hz1)]
  · by_cases hz2 : GAME_HEIGHT ≤ z
    · rw [midBoard_untouched b0 (y + 1) z x (Or.inr hz2),
          midBoard_untouched b0 y z x (Or.inr hz2)]
    · by_cases hzy : z = y
      · subst hzy
        rw [midBoard_untouched b0 (z + 1) z x (Or.inl (by omega))]
        have hsome : firstLand b0 z z GAME_HEIGHT = some z :=
          firstLand_eq_some b0 z z z le_rfl (by omega) hnf
            (by unfold fullBelow; omega)
        simp only [midBoard, hsome]
        have : ¬ (z < z ∨ GAME_HEIGHT ≤ z) := by omega
        simp only [this, if_false]
      · have hcond : ¬ (z < y + 1 ∨ GAME_HEIGHT ≤ z) := by omega
        have hcond' : ¬ (z < y ∨ GAME_HEIGHT ≤ z) := by omega
        have hmiss : y + fullBelow b0 y ≠ z := by
          unfold fullBelow
          omega
        simp only [midBoard, hcond, hcond', if_false,
          firstLand_lo_miss b0 y z hmiss GAME_HEIGHT]

/-- Processing a non-full row `y` with `s > 0` full rows below: the row is
copied `s` positions down and its old position is blanked. -/
theorem midBoard_step_move (b0 : Board) (y : Nat) (hy : y < GAME_HEIGHT)
    (hnf : isFullRow b0 y = false) (hs : 0 < fullFrom b0 (y + 1)) :
    setRow (setRow (midBoard b0 (y + 1)) (y + fullFrom b0 (y + 1))
        (midBoard b0 (y + 1) y)) y emptyRowPx
      = midBoard b0 y := by
  have hland : y + fullBelow b0 y < GAME_HEIGHT := land_lt b0 y hy
  funext z x
  simp only [setRow]
  by_cases hzy : z = y
  · subst hzy
    simp only [if_pos rfl]
    have hnone : firstLand b0 z z GAME_HEIGHT = none := by
      apply firstLand_none_at b0 z z (by omega)
      intro w hw1 hw2 hw3
      by_cases hwz : w = z
      · subst hwz
        unfold fullBelow
        omega
      · omega
    simp only [midBoard, hnone]
    have : ¬ (z < z ∨ GAME_HEIGHT ≤ z) := by omega
    simp only [this, if_false, hnf, Bool.false_eq_true, if_false, emptyRowPx]
    simp
  · simp only [if_neg hzy]
    by_cases hzs : z = y + fullFrom b0 (y + 1)
    · subst hzs
      simp only [if_pos rfl]
      rw [midBoard_untouched b0 (y + 1) y x (Or.inl (by omega))]
      have hsome : firstLand b0 y (y + fullFrom b0 (y + 1)) GAME_HEIGHT = some y :=
        firstLand_eq_some b0 y (y + fullFrom b0 (y + 1)) y le_rfl hy hnf rfl
      simp only [midBoard, hsome]
      have : ¬ (y + fullFrom b0 (y + 1) < y ∨ GAME_HEIGHT ≤ y + fullFrom b0 (y + 1)) := by
        unfold fullBelow at hland
        omega
      simp only [this, if_false]
      simp
    · simp only [if_neg hzs]
      by_cases hz1 : z < y
      · rw [midBoard_untouched b0 (y + 1) z x (Or.inl (by omega)),
            midBoard_untouched b0 y z x (Or.inl hz1)]
      · by_cases hz2 : GAME_HEIGHT ≤ z
        · rw [midBoard_untouched b0 (y + 1) z x (Or.inr hz2),
              midBoard_untouched b0 y z x (Or.inr hz2)]
        · have hcond : ¬ (z < y + 1 ∨ GAME_HEIGHT ≤ z) := by omega
          have hcond' : ¬ (z < y ∨ GAME_HEIGHT ≤ z) := by omega
          have hmiss : y + fullBelow b0 y ≠ z := by
            unfold fullBelow
            omega
          simp only [midBoard, hcond, hcond', if_false,
            firstLand_lo_miss b0 y z hmiss GAME_HEIGHT]

theorem midBoard_height (b0 : Board) : midBoard b0 GAME_HEIGHT = b0 := by
  funext z x
  apply midBoard_untouched
  omega

/-- Loop invariant of the compaction loop: started on the closed-form state
after processing rows `[y, GAME_HEIGHT)`, it finishes in the closed-form
state after processing all rows. -/
theorem compactFrom_invariant (b0 : Board) :
    ∀ y, y ≤ GAME_HEIGHT →
      compactFrom (midBoard b0 y) (fullFrom b0 y) y = (midBoard b0 0, fullFrom b0 0) := by
  intro y
  induction y with
  | zero => intro _; rfl
  | succ y ih =>
    intro hy
    have hy' : y < GAME_HEIGHT := by omega
    have hrow : isFullRow (midBoard b0 (y + 1)) y = isFullRow b0 y :=
      isFullRow_congr (fun x => midBoard_untouched b0 (y + 1) y x (Or.inl (by omega)))
    show compactFrom (midBoard b0 (y + 1)) (fullFrom b0 (y + 1)) (y + 1) = _
    unfold compactFrom
    rw [hrow]
    by_cases hfull : isFullRow b0 y
    · rw [if_pos hfull, midBoard_step_full b0 y hy' hfull]
      have hc : fullFrom b0 (y + 1) + 1 = fullFrom b0 y := by
        rw [fullFrom_succ b0 y hy', if_pos hfull]
        omega
      rw [hc]
      exact ih (by omega)
    · have hnf : isFullRow b0 y = false := by simpa using hfull
      rw [if_neg hfull]
      have hc : fullFrom b0 (y + 1) = fullFrom b0 y := by
        rw [fullFrom_succ b0 y hy', if_neg hfull]
        omega
      by_cases hs : 0 < fullFrom b0 (y + 1)
      · rw [if_pos hs, midBoard_step_move b0 y hy' hnf hs, hc]
        exact ih (by omega)
      · rw [if_neg hs, midBoard_step_skip b0 y hy' hnf (by omega), hc]
        exact ih (by omega)

/-- The compaction loop, from the board's real initial state. -/
theorem compactFrom_eq (b0 : Board) :
    compactFrom b0 0 GAME_HEIGHT = (midBoard b0 0, fullCount b0) := by
  have h := compactFrom_invariant b0 GAME_HEIGHT le_rfl
  rw [midBoard_height, fullFrom_ge b0 GAME_HEIGHT le_rfl] at h
  exact h

/-- The result rows of compaction, described pointwise. -/
theorem midBoard_zero_spec (b0 : Board) :
    (∀ w, w < GAME_HEIGHT → isFullRow b0 w = false →
      ∀ x, midBoard b0 0 (w + fullBelow b0 w) x = b0 w x) ∧
    (∀ z, z < fullCount b0 →
      ∀ x, midBoard b0 0 z x = if isFullRow b0 z then b0 z x else Pixel.Empty) := by
  constructor
  · intro w hw hnf x
    have hlt := land_lt b0 w hw
    have hsome : firstLand b0 0 (w + fullBelow b0 w) GAME_HEIGHT = some w :=
      firstLand_eq_some b0 0 (w + fullBelow b0 w) w (Nat.zero_le w) hw hnf rfl
    simp only [midBoard, hsome]
    have : ¬ (w + fullBelow b0 w < 0 ∨ GAME_HEIGHT ≤ w + fullBelow b0 w) := by omega
    simp only [this, if_false]
  · intro z hz x
    have hzlt : z < GAME_HEIGHT := by
      have h1 := fullFrom_le b0 0
      unfold fullCount at hz
      omega
    have hnone : firstLand b0 0 z GAME_HEIGHT = none := by
      apply firstLand_none_at b0 0 z hzlt
      intro w _ hw2 hw3
      have := land_ge b0 w hw2 hw3
      omega
    simp only [midBoard, hnone]
    have : ¬ (z < 0 ∨ GAME_HEIGHT ≤ z) := by omega
    simp only [this, if_false]

/-- C4 (amended: full rows that lie within the top `k` positions of the
board, `k` being the clear count, are counted and scored but stay on the
board; every other full row is removed).  Part one: with clear count
`k = fullCount ≤ 4`, compaction succeeds; every surviving (non-full) row `w`
moves down by exactly the number of cleared rows below it; every position
at depth `≥ k` holds such a surviving row (so full rows there are removed);
positions above depth `k` keep a full row in place and are blanked
otherwise; `cleared` grows by `k`; `level` becomes `cleared / 10 + 1`; and
`points` grows by the (new) level times the table value
`scoreFor k ∈ {0 ↦ 0, 1 ↦ 40, 2 ↦ 100, 3 ↦ 300, 4 ↦ 1200}`.  Part two: a
clear count above 4 is the fatal `tooManyLinesCleared` panic. -/
theorem c4_compaction_characterisation :
    (∀ g : Game, fullCount g.board ≤ 4 →
      ∃ g' s, compact_board g = Except.ok g' ∧ scoreFor (fullCount g.board) = some s ∧
        (∀ w, w < GAME_HEIGHT → isFullRow g.board w = false →
          ∀ x, g'.board (w + fullBelow g.board w) x = g.board w x) ∧
        (∀ z, fullCount g.board ≤ z → z < GAME_HEIGHT →
          ∃ w, w < GAME_HEIGHT ∧ isFullRow g.board w = false ∧
            w + fullBelow g.board w = z) ∧
        (∀ z, z < fullCount g.board →
          ∀ x, g'.board z x = if isFullRow g.board z then g.board z x else Pixel.Empty) ∧
        g'.cleared = g.cleared + fullCount g.board ∧
        g'.level = (g.cleared + fullCount g.board) / 10 + 1 ∧
        g'.points = g.points + g'.level * s ∧
        g'.falling = g.falling ∧ g'.tick = g.tick) ∧
    (∀ g : Game, 4 < fullCount g.board →
      compact_board g = Except.error (GameError.panics .tooManyLinesCleared)) := by
  constructor
  · intro g hk
    obtain ⟨s, hs⟩ : ∃ s, scoreFor (fullCount g.board) = some s := by
      set k := fullCount g.board with hkdef
      interval_cases k
      · exact ⟨0, rfl⟩
      · exact ⟨40, rfl⟩
      · exact ⟨100, rfl⟩
      · exact ⟨300, rfl⟩
      · exact ⟨1200, rfl⟩
    have hok : compact_board g =
        Except.ok { g with
          board := midBoard g.board 0,
          cleared := g.cleared + fullCount g.board,
          level := (g.cleared + fullCount g.board) / 10 + 1,
          points := g.points + ((g.cleared + fullCount g.board) / 10 + 1) * s } := by
      simp only [compact_board, compactFrom_eq, hs]
    refine ⟨_, s, hok, hs, ?_, ?_, ?_, rfl, rfl, rfl, rfl, rfl⟩
    · exact fun w hw hnf x => (midBoard_zero_spec g.board).1 w hw hnf x
    · intro z hz1 hz2
      have hz1' : 0 + fullFrom g.board 0 ≤ z := by
        unfold fullCount at hz1
        omega
      obtain ⟨w, _, hw2, hw3, hw4⟩ :=
        land_exists g.board GAME_HEIGHT 0 z (by omega) hz1' hz2
      exact ⟨w, hw2, hw3, hw4⟩
    · exact fun z hz x => (midBoard_zero_spec g.board).2 z hz x
  · intro g hk
    have hs : scoreFor (fullCount g.board) = none := by
      obtain ⟨m, hm⟩ : ∃ m, fullCount g.board = m + 5 := ⟨fullCount g.board - 5, by omega⟩
      rw [hm]
      rfl
    simp only [compact_board, compactFrom_eq, hs]

def c4wBoard : Board := fun y _ =>
  if 18 ≤ y ∧ y ≤ 19 then Pixel.Full .IBlock else Pixel.Empty

def c4wGame : Game := { demoGame with board := c4wBoard, falling := none }

/-- Witness for C4 (amended): on a board whose rows 18 and 19 are full the
characterisation applies with clear count 2. -/
theorem c4_compaction_witness :
    fullCount c4wGame.board ≤ 4 ∧
    (∃ g' s, compact_board c4wGame = Except.ok g' ∧
        scoreFor (fullCount c4wGame.board) = some s ∧
        (∀ w, w < GAME_HEIGHT → isFullRow c4wGame.board w = false →
          ∀ x, g'.board (w + fullBelow c4wGame.board w) x = c4wGame.board w x) ∧
        (∀ z, fullCount c4wGame.board ≤ z → z < GAME_HEIGHT →
          ∃ w, w < GAME_HEIGHT ∧ isFullRow c4wGame.board w = false ∧
            w + fullBelow c4wGame.board w = z) ∧
        (∀ z, z < fullCount c4wGame.board →
          ∀ x, g'.board z x
            = if isFullRow c4wGame.board z then c4wGame.board z x else Pixel.Empty) ∧
        g'.cleared = c4wGame.cleared + fullCount c4wGame.board ∧
        g'.level = (c4wGame.cleared + fullCount c4wGame.board) / 10 + 1 ∧
        g'.points = c4wGame.points + g'.level * s ∧
        g'.falling = c4wGame.falling ∧ g'.tick = c4wGame.tick) :=
  ⟨by decide, c4_compaction_characterisation.1 c4wGame (by decide)⟩

def rowZeroFullBoard : Board := fun y _ =>
  if y = 0 then Pixel.Full .IBlock else Pixel.Empty

def rowZeroFullGame : Game := { demoGame with board := rowZeroFullBoard, falling := none }

/-- C4 counterexample against the claim as stated: on a board whose only
full row is row 0, compaction leaves row 0 full (no non-full row ever
overwrites it) even though it counts and scores it: afterwards the row is
still full, `cleared` grew by 1 and 40 points were awarded. -/
theorem c4_counterexample :
    isFullRow rowZeroFullGame.board 0 = true ∧
    (compact_board rowZeroFullGame).map
        (fun g => (decide (isFullRow g.board 0), g.cleared, g.points, g.level))
      = Except.ok (true, 1, 40, 1) := by
  constructor
  · decide
  · decide

/-- C10: the code comment says compaction "might get called twice but that
shouldn't matter", and the claim says a second run adds zero points and
zero cleared lines; but on the board whose only full row is row 0 the first
run leaves that row in place (see `c4_counterexample`), so the second run
counts and scores it again: points 40 → 80 and cleared 1 → 2.  (The board
itself happens to be unchanged both times here.) -/
theorem c10_double_compact_failing :
    (compact_board rowZeroFullGame).map (fun g => (g.cleared, g.points))
      = Except.ok (1, 40) ∧
    ((compact_board rowZeroFullGame).bind compact_board).map (fun g => (g.cleared, g.points))
      = Except.ok (2, 80) := by
  constructor
  · decide
  · decide

/-- The first `n` bag draws (Rust `PieceQueue::pop_from_bag` repeated),
returning the drawn sequence and the final bag. -/
def drawN (choices : Nat → Nat) (used : Nat) (bag : List PieceId) :
    Nat → List PieceId × List PieceId
  | 0 => ([], bag)
  | n + 1 =>
    let pb := pop_from_bag choices used bag
    let rest := drawN choices (used + 1) pb.2 n
    (pb.1 :: rest.1, rest.2)

/-- One draw from a nonempty bag: the bag is a permutation of the drawn
element together with the rest. -/
theorem drawAt_perm (b : List PieceId) (h : b ≠ []) (i : Nat) :
    b.Perm ((drawAt b h i).1 :: (drawAt b h i).2) := by
  have hidx : i % b.length < b.length := Nat.mod_lt _ (List.length_pos.mpr h)
  have h1 : b.Perm (b.get ⟨i % b.length, hidx⟩ :: b.erase (b.get ⟨i % b.length, hidx⟩)) :=
    List.perm_cons_erase (List.get_mem b _ hidx)
  have h2 := List.erase_getElem hidx (l := b)
  show b.Perm (b.get ⟨i % b.length, hidx⟩ :: b.eraseIdx (i % b.length))
  refine h1.trans (List.Perm.cons _ ?_)
  simpa using h2

theorem drawAt_length (b : List PieceId) (h : b ≠ []) (i : Nat) :
    (drawAt b h i).2.length + 1 = b.length := by
  unfold drawAt
  exact List.length_eraseIdx_add_one (Nat.mod_lt _ (List.length_pos.mpr h))

/-- One `pop_from_bag` step from a nonempty bag. -/
theorem pop_from_bag_perm (choices : Nat → Nat) (u : Nat) (b : List PieceId) (h : b ≠ []) :
    b.Perm ((pop_from_bag choices u b).1 :: (pop_from_bag choices u b).2) ∧
      (pop_from_bag choices u b).2.length + 1 = b.length := by
  cases b with
  | nil => exact absurd rfl h
  | cons p rest =>
    exact ⟨drawAt_perm (p :: rest) (by simp) (choices u),
           drawAt_length (p :: rest) (by simp) (choices u)⟩

/-- One `pop_from_bag` step from the empty bag: refill, then draw. -/
theorem pop_from_bag_nil_perm (choices : Nat → Nat) (u : Nat) :
    PieceId.ALL.Perm ((pop_from_bag choices u []).1 :: (pop_from_bag choices u []).2) ∧
      (pop_from_bag choices u []).2.length + 1 = PieceId.ALL.length :=
  ⟨drawAt_perm PieceId.ALL (by decide) (choices u),
   drawAt_length PieceId.ALL (by decide) (choices u)⟩

/-- Drawing a whole nonempty bag yields a permutation of it and leaves the
bag empty. -/
theorem drawN_bag (choices : Nat → Nat) :
    ∀ (n : Nat) (b : List PieceId) (u : Nat), b.length = n → b ≠ [] →
      ((drawN choices u b n).1).Perm b ∧ (drawN choices u b n).2 = [] := by
  intro n
  induction n with
  | zero =>
    intro b u hlen hne
    exact absurd (List.length_eq_zero.mp hlen) hne
  | succ n ih =>
    intro b u hlen hne
    obtain ⟨hperm, hlen'⟩ := pop_from_bag_perm choices u b hne
    have hstep : drawN choices u b (n + 1) =
        ((pop_from_bag choices u b).1 ::
          (drawN choices (u + 1) (pop_from_bag choices u b).2 n).1,
         (drawN choices (u + 1) (pop_from_bag choices u b).2 n).2) := rfl
    cases n with
    | zero =>
      have hnil : (pop_from_bag choices u b).2 = [] :=
        List.length_eq_zero.mp (by omega)
      rw [hstep]
      constructor
      · show ((pop_from_bag choices u b).1 :: (drawN choices (u + 1)
          (pop_from_bag choices u b).2 0).1).Perm b
        rw [show (drawN choices (u + 1) (pop_from_bag choices u b).2 0).1 = [] from rfl]
        refine (List.Perm.cons _ ?_).trans hperm.symm
        rw [hnil]
      · show (drawN choices (u + 1) (pop_from_bag choices u b).2 0).2 = []
        rw [show (drawN choices (u + 1) (pop_from_bag choices u b).2 0).2
          = (pop_from_bag choices u b).2 from rfl]
        exact hnil
    | succ n =>
      have hne' : (pop_from_bag choices u b).2 ≠ [] := by
        intro hc
        rw [hc] at hlen'
        simp at hlen'
        omega
      obtain ⟨ihp, ihe⟩ := ih (pop_from_bag choices u b).2 (u + 1) (by omega) hne'
      rw [hstep]
      exact ⟨(List.Perm.cons _ ihp).trans hperm.symm, ihe⟩

/-- Seven draws from an empty bag: one full refilled bag, drawn completely. -/
theorem drawN_seven (choices : Nat → Nat) (u : Nat) :
    ((drawN choices u [] 7).1).Perm PieceId.ALL ∧ (drawN choices u [] 7).2 = [] := by
  obtain ⟨hperm, hlen⟩ := pop_from_bag_nil_perm choices u
  have hne : (pop_from_bag choices u []).2 ≠ [] := by
    intro hc
    rw [hc] at hlen
    simp [PieceId.ALL] at hlen
  obtain ⟨ihp, ihe⟩ := drawN_bag choices 6 (pop_from_bag choices u []).2 (u + 1)
    (by simp [PieceId.ALL] at hlen; omega) hne
  have hstep : drawN choices u [] 7 =
      ((pop_from_bag choices u []).1 ::
        (drawN choices (u + 1) (pop_from_bag choices u []).2 6).1,
       (drawN choices (u + 1) (pop_from_bag choices u []).2 6).2) := rfl
  rw [hstep]
  exact ⟨(List.Perm.cons _ ihp).trans hperm.symm, ihe⟩

theorem drawN_length (choices : Nat → Nat) :
    ∀ (n : Nat) (u : Nat) (b : List PieceId), (drawN choices u b n).1.length = n := by
  intro n
  induction n with
  | zero => intro u b; rfl
  | succ n ih =>
    intro u b
    show ((pop_from_bag choices u b).1 ::
      (drawN choices (u + 1) (pop_from_bag choices u b).2 n).1).length = n + 1
    simp [ih]

/-- Splitting a draw sequence. -/
theorem drawN_add (choices : Nat → Nat) :
    ∀ (m n : Nat) (u : Nat) (b : List PieceId),
      drawN choices u b (m + n)
        = ((drawN choices u b m).1 ++ (drawN choices (u + m) (drawN choices u b m).2 n).1,
           (drawN choices (u + m) (drawN choices u b m).2 n).2) := by
  intro m
  induction m with
  | zero =>
    intro n u b
    simp [drawN]
  | succ m ih =>
    intro n u b
    rw [show m + 1 + n = (m + n) + 1 from by omega]
    show ((pop_from_bag choices u b).1 ::
        (drawN choices (u + 1) (pop_from_bag choices u b).2 (m + n)).1,
       (drawN choices (u + 1) (pop_from_bag choices u b).2 (m + n)).2) = _
    rw [ih (n := n) (u := u + 1) (b := (pop_from_bag choices u b).2)]
    have hm1 : drawN choices u b (m + 1) =
        ((pop_from_bag choices u b).1 ::
          (drawN choices (u + 1) (pop_from_bag choices u b).2 m).1,
         (drawN choices (u + 1) (pop_from_bag choices u b).2 m).2) := rfl
    rw [hm1]
    rw [show u + 1 + m = u + (m + 1) from by omega]
    rfl

/-- Longer draw sequences extend shorter ones. -/
theorem drawN_take (choices : Nat → Nat) (m n : Nat) (u : Nat) (b : List PieceId)
    (h : m ≤ n) : (drawN choices u b n).1.take m = (drawN choices u b m).1 := by
  rw [show n = m + (n - m) from by omega, drawN_add choices m (n - m) u b]
  exact List.take_left' (drawN_length choices m u b)

/-- At every multiple of 7 draws the bag is empty again. -/
theorem drawN_boundary (choices : Nat → Nat) :
    ∀ m : Nat, (drawN choices 0 [] (7 * m)).2 = [] := by
  intro m
  induction m with
  | zero => rfl
  | succ m ih =>
    have h1 : 7 * (m + 1) = 7 * m + 7 := by omega
    calc (drawN choices 0 [] (7 * (m + 1))).2
        = (drawN choices 0 [] (7 * m + 7)).2 := by rw [h1]
      _ = (drawN choices (0 + 7 * m) (drawN choices 0 [] (7 * m)).2 7).2 := by
          rw [drawN_add choices (7 * m) 7 0 []]
      _ = (drawN choices (0 + 7 * m) [] 7).2 := by rw [ih]
      _ = [] := (drawN_seven choices (0 + 7 * m)).2

/-- Each aligned block of 7 draws is a permutation of the seven kinds. -/
theorem drawN_block (choices : Nat → Nat) (m : Nat) :
    (((drawN choices 0 [] (7 * m + 7)).1.drop (7 * m))).Perm PieceId.ALL := by
  have hsplit := drawN_add choices (7 * m) 7 0 []
  rw [drawN_boundary choices m] at hsplit
  rw [hsplit]
  show (((drawN choices 0 [] (7 * m)).1 ++ (drawN choices (0 + 7 * m) [] 7).1).drop
    (7 * m)).Perm PieceId.ALL
  rw [List.drop_left' (drawN_length choices (7 * m) 0 [])]
  exact (drawN_seven choices (0 + 7 * m)).1

/-- The outputs and end state of `n` consecutive `PieceQueue::pop` calls. -/
def popN (q : PieceQueue) : Nat → List PieceId × PieceQueue
  | 0 => ([], q)
  | n + 1 =>
    match PieceQueue.pop q with
    | none => ([], q)
    | some oq =>
      let rest := popN oq.2 n
      (oq.1 :: rest.1, rest.2)

/-- The queue state after `k` pops from a fresh queue: `k + 3` total draws,
the last three still in the lookahead buffer. -/
def qstate (choices : Nat → Nat) (k : Nat) : PieceQueue :=
  { choices := choices, used := k + 3, bag := (drawN choices 0 [] (k + 3)).2,
    queue := (drawN choices 0 [] (k + 3)).1.drop k }

theorem new_eq_qstate (choices : Nat → Nat) : PieceQueue.new choices = qstate choices 0 := rfl

theorem popN_from (choices : Nat → Nat) :
    ∀ n k, popN (qstate choices k) n
      = (((drawN choices 0 [] (k + n + 3)).1.drop k).take n, qstate choices (k + n)) := by
  intro n
  induction n with
  | zero =>
    intro k
    simp [popN]
  | succ n ih =>
    intro k
    have hk3 : k < (drawN choices 0 [] (k + 3)).1.length := by
      rw [drawN_length]
      omega
    have hqueue : (drawN choices 0 [] (k + 3)).1.drop k
        = (drawN choices 0 [] (k + 3)).1[k] :: (drawN choices 0 [] (k + 3)).1.drop (k + 1) :=
      List.drop_eq_getElem_cons hk3
    have hpop : (qstate choices k).pop = some ((drawN choices 0 [] (k + 3)).1[k],
        { choices := choices, used := (k + 3) + 1,
          bag := (pop_from_bag choices (k + 3) (drawN choices 0 [] (k + 3)).2).2,
          queue := (drawN choices 0 [] (k + 3)).1.drop (k + 1)
            ++ [(pop_from_bag choices (k + 3) (drawN choices 0 [] (k + 3)).2).1] }) := by
      show PieceQueue.pop
        { choices := choices, used := k + 3,
          bag := (drawN choices 0 [] (k + 3)).2,
          queue := (drawN choices 0 [] (k + 3)).1.drop k } = _
      rw [hqueue]
      rfl
    have hsplit := drawN_add choices (k + 3) 1 0 []
    have hb1 : (drawN choices (0 + (k + 3)) (drawN choices 0 [] (k + 3)).2 1)
        = ((pop_from_bag choices (0 + (k + 3)) (drawN choices 0 [] (k + 3)).2).1 :: [],
           (pop_from_bag choices (0 + (k + 3)) (drawN choices 0 [] (k + 3)).2).2) := rfl
    rw [hb1] at hsplit
    have hz : (0 : Nat) + (k + 3) = k + 3 := by omega
    rw [hz] at hsplit
    -- the state after this pop is exactly `qstate choices (k + 1)`
    have hstate :
        ({ choices := choices,
           used := (k + 3) + 1,
           bag := (pop_from_bag choices (k + 3) (drawN choices 0 [] (k + 3)).2).2,
           queue := (drawN choices 0 [] (k + 3)).1.drop (k + 1)
             ++ [(pop_from_bag choices (k + 3) (drawN choices 0 [] (k + 3)).2).1] }
          : PieceQueue)
        = qstate choices (k + 1) := by
      unfold qstate
      rw [show k + 1 + 3 = k + 3 + 1 from by omega, hsplit]
      have hq2 : (((drawN choices 0 [] (k + 3)).1
            ++ [(pop_from_bag choices (k + 3) (drawN choices 0 [] (k + 3)).2).1],
          (pop_from_bag choices (k + 3) (drawN choices 0 [] (k + 3)).2).2) :
            List PieceId × List PieceId).1.drop (k + 1)
          = (drawN choices 0 [] (k + 3)).1.drop (k + 1)
            ++ [(pop_from_bag choices (k + 3) (drawN choices 0 [] (k + 3)).2).1] := by
        show ((drawN choices 0 [] (k + 3)).1
            ++ [(pop_from_bag choices (k + 3) (drawN choices 0 [] (k + 3)).2).1]).drop (k + 1)
          = _
        rw [List.drop_append_of_le_length (by rw [drawN_length]; omega)]
      rw [hq2]
    have hstep : popN (qstate choices k) (n + 1)
        = ((drawN choices 0 [] (k + 3)).1[k] :: (popN (qstate choices (k + 1)) n).1,
           (popN (qstate choices (k + 1)) n).2) := by
      show (match (qstate choices k).pop with
        | none => ([], qstate choices k)
        | some oq =>
          ((oq.1 :: (popN oq.2 n).1, (popN oq.2 n).2) : List PieceId × PieceQueue)) = _
      rw [hpop, hstate]
    have ih' := ih (k + 1)
    simp only [show k + 1 + n + 3 = k + (n + 1) + 3 from by omega,
        show k + 1 + n = k + (n + 1) from by omega] at ih'
    rw [hstep, ih']
    have hL : k < ((drawN choices 0 [] (k + (n + 1) + 3)).1).length := by
      rw [drawN_length]
      omega
    have hL2 : (drawN choices 0 [] (k + (n + 1) + 3)).1.drop k
        = (drawN choices 0 [] (k + (n + 1) + 3)).1[k]
          :: (drawN choices 0 [] (k + (n + 1) + 3)).1.drop (k + 1) :=
      List.drop_eq_getElem_cons hL
    rw [hL2, List.take_succ_cons]
    have hhead : (drawN choices 0 [] (k + 3)).1[k]
        = (drawN choices 0 [] (k + (n + 1) + 3)).1[k] := by
      have htake := drawN_take choices (k + 3) (k + (n + 1) + 3) 0 [] (by omega)
      have hq : (drawN choices 0 [] (k + 3)).1.get? k
          = (drawN choices 0 [] (k + (n + 1) + 3)).1.get? k := by
        rw [← htake, List.get?_take (by omega : k < k + 3)]
      rw [List.get?_eq_getElem? , List.get?_eq_getElem?,
          List.getElem?_eq_getElem hk3, List.getElem?_eq_getElem hL] at hq
      exact Option.some.inj hq
    rw [hhead]

/-- C8.  Each bag draw refills the bag with exactly the seven kinds when it
is empty and removes one element at the chosen index (`drawAt`/
`pop_from_bag`); consequently, for every sequence of random choices, the
window of 7 consecutive `pop()` outputs aligned to a bag boundary (outputs
`7m … 7m+6` of a fresh queue) contains each of the 7 kinds exactly once. -/
theorem c8_bag_window_fair (choices : Nat → Nat) (m : Nat) :
    (((popN (PieceQueue.new choices) (7 * m + 7)).1.drop (7 * m))).Perm PieceId.ALL := by
  rw [new_eq_qstate choices, popN_from choices (7 * m + 7) 0]
  show ((((drawN choices 0 [] (0 + (7 * m + 7) + 3)).1.drop 0).take (7 * m + 7)).drop
    (7 * m)).Perm PieceId.ALL
  rw [List.drop_zero, show 0 + (7 * m + 7) + 3 = (7 * m + 7) + 3 from by omega,
      drawN_take choices (7 * m + 7) ((7 * m + 7) + 3) 0 [] (by omega)]
  exact drawN_block choices m

def maskOfRows (rows : List (List Bool)) : Mask :=
  fun r c => (rows.getD r.val []).getD c.val false

/-- Clockwise quarter-turn of a 4×4 mask. -/
def rot90 (m : Mask) : Mask :=
  fun r c => m ⟨3 - c.val, by omega⟩ ⟨r.val, r.isLt⟩

/-- Modelled from the spec: the rotation-mask resource `masks.txt` is not
among the sources (the spec's Piece Catalog contract: each of the 7 kinds
has exactly 4 ordered 4×4 masks, order matching clockwise rotation; the
O-piece occupies relative cells (1,1)-(2,2)).  Standard tetromino base
shapes in rows 0-1 of the 4×4 box. -/
def baseMask : PieceId → Mask
  | .IBlock => maskOfRows [[false, false, false, false], [true, true, true, true]]
  | .JBlock => maskOfRows [[true, false, false, false], [true, true, true, false]]
  | .LBlock => maskOfRows [[false, false, true, false], [true, true, true, false]]
  | .OBlock => maskOfRows [[false, true, true, false], [false, true, true, false]]
  | .SBlock => maskOfRows [[false, true, true, false], [true, true, false, false]]
  | .TBlock => maskOfRows [[false, true, false, false], [true, true, true, false]]
  | .ZBlock => maskOfRows [[true, true, false, false], [false, true, true, false]]

/-- Modelled from the spec: the four clockwise orientations of each kind. -/
def specMaskMap : MaskMap := fun id i => rot90^[i.val] (baseMask id)

/-- A public control or tick operation of the engine. -/
inductive Op where
  | move (dx dy : Int)
  | rotate (di : Int)
  | hardDrop
  | tick
  | holdSwap

def applyOp (g : Game) : Op → Except GameError Game
  | .move dx dy => move_falling_piece dx dy g
  | .rotate di => rotate_falling_piece di g
  | .hardDrop => hard_drop g
  | .tick => Game.iterate g
  | .holdSwap => switch_hold g

/-- A play: a sequence of public operations applied to a game state. -/
def runTrace (g : Game) (ops : List Op) : Except GameError Game :=
  ops.foldlM applyOp g

def c9Choices : Nat → Nat := fun n => [0, 0, 2, 0, 1].getD n 0

def c9Trace : List Op :=
  [Op.tick]
  ++ List.replicate 3 (Op.move (-1) 0)
  ++ [Op.hardDrop, Op.move 1 0, Op.hardDrop, Op.move 1 0, Op.hardDrop]
  ++ List.replicate 4 (Op.move 1 0)
  ++ [Op.hardDrop]
  ++ List.replicate 4 (Op.move 1 0)
  ++ List.replicate 16 (Op.move 0 1)
  ++ [Op.move (-1) 0, Op.move 0 1, Op.move (-1) 0, Op.tick]

def c9Check (e : Except GameError Game) : Bool :=
  match e with
  | .ok g =>
    match g.falling with
    | some fp => intersects_with fp.mask fp.pos g.board
    | none => false
  | .error _ => false

/-- C9 refutation by a concrete reachable play.  From a fresh game (spec-
modelled mask catalog, explicit choice oracle) the public operations alone
reach a state whose active falling piece intersects the board: pieces
I, J, S, L build a full bottom row with an overhang, the T piece is walked
under the overhang with plain moves, and the next `iterate`'s compaction
clears the bottom row and shifts the overhang down into the active piece
(the gravity step is skipped since `tick % 59 ≠ 0`).  From such a state the
`print_onto` occupied-cell panic is no longer protected by the collision
oracle. -/
theorem c9_invariant_violation :
    c9Check ((game_new specMaskMap c9Choices).bind fun g => runTrace g c9Trace) = true := by
  decide
